import Mathlib

/-!
Verification of the scatter-to-grid operation implemented by the class
`ScatterConnection` in `ding/torch_utils/network/scatter_connection.py`.

Tensors are embedded as total functions from natural-number indices to values;
the dimensions `B` (batch), `M` (entity count), `N` (feature channels), and the
spatial size `H`, `W` travel alongside as explicit parameters.  Feature values
are modelled as exact integers (any exactly representable values; the claims
under study are about placement and summation, which are dtype-independent).
Integer coordinate tensors (`torch.LongTensor`) are modelled as functions into
`ℤ`; the coordinate tensors of `xy_forward` may carry a fractional dtype in the
code (they are multiplied and then cast with `.long()`), so those are modelled
as functions into `ℚ`.

The in-place writes `output.scatter_(dim, index, src)` and
`output.scatter_add_(dim, index, src)` are embedded pointwise: the value that
address `j` of the flat output buffer holds after the call.  For `scatter_`,
duplicate addresses resolve to the write that comes last in the source order of
the kernel loop (the sequential reference order, which is also the flattening
order of the index tensor built by the two entry points); for `scatter_add_`,
all writes to an address are summed.
-/

/-- Value held at flat address `j` after `scatter_` performs the writes
`0, 1, ..., n-1` in order, write `k` targeting address `idx k` with source
value `val k`, over a zero-initialised buffer: the last matching write wins,
a cell no write targets stays `0`. -/
def coverAt (n : ℕ) (idx : ℕ → ℤ) (val : ℕ → ℤ) (j : ℤ) : ℤ :=
  (List.range n).foldl (fun acc k => if idx k = j then val k else acc) 0

/-- Value held at flat address `j` after `scatter_add_` performs the writes
`0, 1, ..., n-1`, write `k` targeting address `idx k` with source value
`val k`, over a zero-initialised buffer: all matching writes are summed. -/
def addAt (n : ℕ) (idx : ℕ → ℤ) (val : ℕ → ℤ) (j : ℤ) : ℤ :=
  (List.range n).foldl (fun acc k => if idx k = j then acc + val k else acc) 0

/-- Truncation of a rational toward zero, the semantics of the `.long()`
dtype cast applied by `xy_forward` to its combined coordinate expression. -/
def ratTrunc (q : ℚ) : ℤ := if 0 ≤ q then ⌊q⌋ else -⌊-q⌋

/-- The module class: it holds exactly one piece of state, the string
`scatter_type` fixed by `__init__`. -/
structure ScatterConnection where
  scatter_type : String

/-- Embedding of `ScatterConnection.__init__`: the constructor stores
`scatter_type` and then asserts membership in `['cover', 'add']`; a failed
assertion aborts construction, so no instance is produced. -/
def mkScatterConnection (st : String) : Option ScatterConnection :=
  if st = "cover" ∨ st = "add" then some ⟨st⟩ else none

/-- Flat write address of entity `k` (flattening order of
`location.view(-1, 2)`, batch-major then entity-index) in `forward`:
`index = index[:, 0] * W + index[:, 1]` plus the batch bias
`bias = arange(B).mul_(H*W)` repeated `M` times, so write `k` of batch
element `k / M`, entity `k % M`, targets
`location[...][0] * W + location[...][1] + (k / M) * H * W`. -/
def fwdIdx (M H W : ℕ) (location : ℕ → ℕ → ℕ → ℤ) (k : ℕ) : ℤ :=
  location (k / M) (k % M) 0 * (W : ℤ) + location (k / M) (k % M) 1
    + ((k / M : ℕ) : ℤ) * ((H : ℤ) * (W : ℤ))

/-- Flat address, inside the single buffer `zeros(N, B*H*W)` of `forward`,
that cell `(b, h, w)` of the returned `(B, N, H, W)` output reads: the
output is `reshape(N, B, H, W)` then `permute(1, 0, 2, 3)` of that buffer. -/
def cellIdx (H W b h w : ℕ) : ℤ := ((b * (H * W) + h * W + w : ℕ) : ℤ)

/-- Embedding of `ScatterConnection.forward`: value of the returned tensor at
`output[b][n][h][w]`.  The source tensor passed to the scatter is
`x.view(-1, N).permute(1, 0)`, so write `k` of channel `n` carries
`x[k / M][k % M][n]`; the index tensor is `index.repeat(N, 1)`, the same
address for every channel.  If `scatter_type` is neither branch the buffer
keeps its zeros (unreachable for instances built by `__init__`). -/
def ScatterConnection.forward (self : ScatterConnection) (B M N H W : ℕ)
    (x : ℕ → ℕ → ℕ → ℤ) (location : ℕ → ℕ → ℕ → ℤ)
    (b n h w : ℕ) : ℤ :=
  if self.scatter_type = "cover" then
    coverAt (B * M) (fwdIdx M H W location) (fun k => x (k / M) (k % M) n)
      (cellIdx H W b h w)
  else if self.scatter_type = "add" then
    addAt (B * M) (fwdIdx M H W location) (fun k => x (k / M) (k % M) n)
      (cellIdx H W b h w)
  else 0

/-- Flat write address of entity `m` of batch element `b` in `xy_forward`:
`indices = (coord_x * W + coord_y).long()`, the arithmetic done in the
coordinate dtype and only the combined value truncated. -/
def xyIdx (W : ℕ) (coord_x coord_y : ℕ → ℕ → ℚ) (b m : ℕ) : ℤ :=
  ratTrunc (coord_x b m * (W : ℚ) + coord_y b m)

/-- Embedding of `ScatterConnection.xy_forward`: value of the returned tensor
at `output[b][n][h][w]`.  The buffer is `zeros(B, N, H, W).view(B, N, H*W)`
and the scatter runs along `dim=2`, so batch element `b`, channel `n` is an
independent row of length `H*W` receiving the `M` writes of that batch
element; the source is `x.permute(0, 2, 1)`, so write `m` of channel `n`
carries `x[b][m][n]`; the cell read back at `(h, w)` is flat address
`h * W + w` of that row. -/
def ScatterConnection.xy_forward (self : ScatterConnection) (B M N H W : ℕ)
    (x : ℕ → ℕ → ℕ → ℤ) (coord_x coord_y : ℕ → ℕ → ℚ)
    (b n h w : ℕ) : ℤ :=
  if self.scatter_type = "cover" then
    coverAt M (xyIdx W coord_x coord_y b) (fun m => x b m n) ((h * W + w : ℕ) : ℤ)
  else if self.scatter_type = "add" then
    addAt M (xyIdx W coord_x coord_y b) (fun m => x b m n) ((h * W + w : ℕ) : ℤ)
  else 0

/-- Transposition of the two entity positions `a` and `b`. -/
def swap2 (a b m : ℕ) : ℕ := if m = a then b else if m = b then a else m

/-- Transposition of entities `a` and `b` inside every batch row of the
flattened batch-major order of `forward`. -/
def swapRow (M a b k : ℕ) : ℕ := (k / M) * M + swap2 a b (k % M)

/-- A `view`/`reshape` step: legal exactly when the element count is
preserved, in which case the data adopts the target shape. -/
def reshapeShape (s t : List ℕ) : Option (List ℕ) :=
  if s.prod = t.prod then some t else none

/-- A `permute` step: the axes reordered by `dims`. -/
def permuteShape (s : List ℕ) (dims : List ℕ) : List ℕ :=
  dims.map (fun i => s.getD i 0)

/-- Shape bookkeeping of `forward`: the accumulator `zeros(N, B*H*W)` (the
scatter writes preserve its shape), then `reshape(N, B, H, W)`, then
`permute(1, 0, 2, 3)`. -/
def forwardShape (B N H W : ℕ) : Option (List ℕ) :=
  (reshapeShape [N, B * H * W] [N, B, H, W]).map
    (fun s => permuteShape s [1, 0, 2, 3])

/-- Shape bookkeeping of `xy_forward`: the accumulator
`zeros(B, N, H, W).view(B, N, H*W)` (the scatter writes preserve its shape),
then `view(B, N, H, W)`. -/
def xyForwardShape (B N H W : ℕ) : Option (List ℕ) :=
  (reshapeShape [B, N, H, W] [B, N, H * W]).bind
    (fun s => reshapeShape s [B, N, H, W])

/-- Call-level embedding of `forward` when the `location` argument carries
its own shape `(B₂, M₂, 2)` while `x` carries `(B, M, N)`.  The code performs
no explicit validation: `location.view(-1, 2)` flattens to `B₂*M₂` pairs
regardless of the grouping, so `locFlat` lists the pairs in flattened order.
The first shape-sensitive step is the in-place broadcast add `index += bias`
(`index` of length `B₂*M₂`, `bias` of length `B*M`), followed by the scatter
whose `index` tensor of row length `B₂*M₂` runs against `src` of row length
`B*M`; together these raise a runtime shape error exactly when the two
element counts differ, except the broadcast corner `B*M = 1, B₂*M₂ = 0`
where the length-1 bias broadcasts over the empty index, the scatter writes
nothing, and the call returns the all-zero output.  When the counts agree
the call completes, pairing the flattened locations with the flattened
entities in order. -/
def forwardChecked (self : ScatterConnection) (B M N B₂ M₂ H W : ℕ)
    (x : ℕ → ℕ → ℕ → ℤ) (locFlat : ℕ → ℕ → ℤ) :
    Option (ℕ → ℕ → ℕ → ℕ → ℤ) :=
  if B₂ * M₂ = B * M then
    some (self.forward B M N H W x (fun bb mm c => locFlat (bb * M + mm) c))
  else if B * M = 1 ∧ B₂ * M₂ = 0 then
    some (fun _ _ _ _ => 0)
  else none

/-- Storage-level effect state, used for the frame property.  Each tensor op
in the two bodies either aliases the storage of its argument (`view`,
`permute`, `reshape` of a contiguous tensor, `unsqueeze`, basic slicing such
as `index[:, 0]`, `.to` onto the same device), allocates a fresh storage
(`arange`, `zeros`, `repeat`, `.contiguous()` of a non-contiguous tensor,
the `.long()` dtype cast, and the out-of-place arithmetic operators `*` and
`+`), or writes in place into the storage of its receiver (`.mul_`, the
augmented assignment `+=`, `scatter_`, `scatter_add_`).  The state tracks
the next fresh storage id and the ids written in place, in program order. -/
structure EffSt where
  next : ℕ
  writes : List ℕ

/-- An allocating op: returns a fresh storage id. -/
def allocOp (s : EffSt) : ℕ × EffSt := (s.next, ⟨s.next + 1, s.writes⟩)

/-- An aliasing op: returns the storage id of its argument. -/
def viewOp (t : ℕ) (s : EffSt) : ℕ × EffSt := (t, s)

/-- An in-place op: writes and returns the storage id of its receiver. -/
def inplaceOp (t : ℕ) (s : EffSt) : ℕ × EffSt := (t, ⟨s.next, s.writes ++ [t]⟩)

/-- Effects of the body of `forward`, statement by statement, given the
storage ids of the inputs `x` and `location`: the storage ids written in
place, and the storage id of the returned tensor. -/
def forwardEffects (xsid locsid : ℕ) : List ℕ × ℕ :=
  let s0 : EffSt := ⟨max xsid locsid + 1, []⟩
  let (index0, s1) := viewOp locsid s0          -- location.view(-1, 2)
  let (bias0, s2) := allocOp s1                 -- torch.arange(B)
  let (bias1, s3) := inplaceOp bias0 s2         -- .mul_(H * W)
  let (bias2, s4) := viewOp bias1 s3            -- .unsqueeze(1)
  let (bias3, s5) := allocOp s4                 -- .repeat(1, M)
  let (_bias4, s6) := viewOp bias3 s5           -- .view(-1).to(device)
  let (col0, s7) := viewOp index0 s6            -- index[:, 0]
  let (_col1, s8) := viewOp index0 s7           -- index[:, 1]
  let (_prod, s9) := allocOp s8                 -- index[:, 0] * W
  let (index1, s10) := allocOp s9               -- ... + index[:, 1]
  let (index2, s11) := inplaceOp index1 s10     -- index += bias
  let (_index3, s12) := allocOp s11             -- index.repeat(N, 1)
  let (xv, s13) := viewOp xsid s12              -- x.view(-1, N)
  let (_xp, s14) := viewOp xv s13               -- .permute(1, 0)
  let (output0, s15) := allocOp s14             -- torch.zeros(N, B*H*W)
  let (output1, s16) := inplaceOp output0 s15   -- scatter_ / scatter_add_
  let (output2, s17) := viewOp output1 s16      -- .reshape(N, B, H, W)
  let (output3, s18) := viewOp output2 s17      -- .permute(1, 0, 2, 3)
  let (output4, s19) := allocOp s18             -- .contiguous()
  let _ := bias2
  let _ := col0
  let _ := index2
  let _ := output3
  (s19.writes, output4)

/-- Effects of the body of `xy_forward`, statement by statement, given the
storage ids of the inputs `x`, `coord_x` and `coord_y`. -/
def xyForwardEffects (xsid cxsid cysid : ℕ) : List ℕ × ℕ :=
  let s0 : EffSt := ⟨max xsid (max cxsid cysid) + 1, []⟩
  let (_xp, s1) := viewOp xsid s0               -- x.permute(0, 2, 1)
  let (_prod, s2) := allocOp s1                 -- coord_x * W
  let (_sum, s3) := allocOp s2                  -- ... + coord_y
  let (long0, s4) := allocOp s3                 -- .long()
  let (unsq, s5) := viewOp long0 s4             -- .unsqueeze(dim=1)
  let (_rep, s6) := allocOp s5                  -- .repeat(1, N, 1)
  let (out0, s7) := allocOp s6                  -- torch.zeros(B, N, H, W)
  let (out1, s8) := viewOp out0 s7              -- .view(B, N, H*W)
  let (out2, s9) := inplaceOp out1 s8           -- scatter_ / scatter_add_
  let (out3, s10) := viewOp out2 s9             -- .view(B, N, H, W)
  let _ := unsq
  (s10.writes, out3)

theorem coverAt_zero (idx : ℕ → ℤ) (val : ℕ → ℤ) (j : ℤ) :
    coverAt 0 idx val j = 0 := rfl

theorem coverAt_succ (n : ℕ) (idx : ℕ → ℤ) (val : ℕ → ℤ) (j : ℤ) :
    coverAt (n + 1) idx val j
      = if idx n = j then val n else coverAt n idx val j := by
  simp [coverAt, List.range_succ]

theorem addAt_zero (idx : ℕ → ℤ) (val : ℕ → ℤ) (j : ℤ) :
    addAt 0 idx val j = 0 := rfl

theorem addAt_succ (n : ℕ) (idx : ℕ → ℤ) (val : ℕ → ℤ) (j : ℤ) :
    addAt (n + 1) idx val j
      = if idx n = j then addAt n idx val j + val n else addAt n idx val j := by
  simp only [addAt, List.range_succ, List.foldl_append, List.foldl_cons, List.foldl_nil]

/-- The last write targeting address `j` determines the cover result. -/
theorem coverAt_eq_last (n : ℕ) (idx : ℕ → ℤ) (val : ℕ → ℤ) (j : ℤ) (k : ℕ)
    (hk : k < n) (hj : idx k = j)
    (hlast : ∀ k', k' < n → k < k' → idx k' ≠ j) :
    coverAt n idx val j = val k := by
  induction n with
  | zero => omega
  | succ n ih =>
    rw [coverAt_succ]
    rcases Nat.lt_succ_iff_lt_or_eq.mp hk with h | h
    · rw [if_neg (hlast n (Nat.lt_succ_self n) h)]
      exact ih h fun k' h1 h2 => hlast k' (Nat.lt_succ_of_lt h1) h2
    · subst h; rw [if_pos hj]

/-- A cell no write targets stays zero under cover. -/
theorem coverAt_eq_zero (n : ℕ) (idx : ℕ → ℤ) (val : ℕ → ℤ) (j : ℤ)
    (h : ∀ k, k < n → idx k ≠ j) :
    coverAt n idx val j = 0 := by
  induction n with
  | zero => rfl
  | succ n ih =>
    rw [coverAt_succ, if_neg (h n (Nat.lt_succ_self n))]
    exact ih fun k hk => h k (Nat.lt_succ_of_lt hk)

/-- Closed form of the accumulate result: the sum over the matching writes. -/
theorem addAt_eq_sum (n : ℕ) (idx : ℕ → ℤ) (val : ℕ → ℤ) (j : ℤ) :
    addAt n idx val j = ∑ k ∈ Finset.range n, if idx k = j then val k else 0 := by
  induction n with
  | zero => rfl
  | succ n ih =>
    rw [addAt_succ, Finset.sum_range_succ, ← ih]
    split <;> simp

/-- A cell no write targets stays zero under accumulate. -/
theorem addAt_eq_zero (n : ℕ) (idx : ℕ → ℤ) (val : ℕ → ℤ) (j : ℤ)
    (h : ∀ k, k < n → idx k ≠ j) :
    addAt n idx val j = 0 := by
  rw [addAt_eq_sum]
  refine Finset.sum_eq_zero fun k hk => ?_
  rw [if_neg (h k (Finset.mem_range.mp hk))]

/-- When exactly two writes target address `j`, accumulate yields their sum. -/
theorem addAt_eq_pair (n : ℕ) (idx : ℕ → ℤ) (val : ℕ → ℤ) (j : ℤ) (k1 k2 : ℕ)
    (h1 : k1 < n) (h2 : k2 < n) (hne : k1 ≠ k2)
    (hj1 : idx k1 = j) (hj2 : idx k2 = j)
    (honly : ∀ k, k < n → idx k = j → k = k1 ∨ k = k2) :
    addAt n idx val j = val k1 + val k2 := by
  rw [addAt_eq_sum]
  have := Finset.sum_eq_add (s := Finset.range n)
    (f := fun k => if idx k = j then val k else 0) k1 k2 hne
    (fun c hc hcn => by
      by_cases h : idx c = j
      · rcases honly c (Finset.mem_range.mp hc) h with h' | h'
        · exact absurd h' hcn.1
        · exact absurd h' hcn.2
      · exact if_neg h)
    (fun h => absurd (Finset.mem_range.mpr h1) h)
    (fun h => absurd (Finset.mem_range.mpr h2) h)
  simpa [hj1, hj2] using this

/-- Two write sequences agreeing, on address markers and matched values, over
the first `n` writes produce the same cover result. -/
theorem coverAt_congr (n : ℕ) (idx idx' : ℕ → ℤ) (val val' : ℕ → ℤ) (j : ℤ)
    (hidx : ∀ k, k < n → (idx k = j ↔ idx' k = j))
    (hval : ∀ k, k < n → idx k = j → val k = val' k) :
    coverAt n idx val j = coverAt n idx' val' j := by
  induction n with
  | zero => rfl
  | succ n ih =>
    rw [coverAt_succ, coverAt_succ]
    by_cases h : idx n = j
    · rw [if_pos h, if_pos ((hidx n (Nat.lt_succ_self n)).mp h)]
      exact hval n (Nat.lt_succ_self n) h
    · rw [if_neg h, if_neg (fun h' => h ((hidx n (Nat.lt_succ_self n)).mpr h'))]
      exact ih (fun k hk => hidx k (Nat.lt_succ_of_lt hk))
        (fun k hk => hval k (Nat.lt_succ_of_lt hk))

/-- Two write sequences agreeing, on address markers and matched values, over
the first `n` writes produce the same accumulate result. -/
theorem addAt_congr (n : ℕ) (idx idx' : ℕ → ℤ) (val val' : ℕ → ℤ) (j : ℤ)
    (hidx : ∀ k, k < n → (idx k = j ↔ idx' k = j))
    (hval : ∀ k, k < n → idx k = j → val k = val' k) :
    addAt n idx val j = addAt n idx' val' j := by
  rw [addAt_eq_sum, addAt_eq_sum]
  refine Finset.sum_congr rfl fun k hk => ?_
  have hk' := Finset.mem_range.mp hk
  by_cases h : idx k = j
  · rw [if_pos h, if_pos ((hidx k hk').mp h), hval k hk' h]
  · rw [if_neg h, if_neg (fun h' => h ((hidx k hk').mpr h'))]

/-- The accumulate result is invariant under reordering the writes by a
self-inverse bijection of the write positions. -/
theorem addAt_comp (n : ℕ) (idx : ℕ → ℤ) (val : ℕ → ℤ) (j : ℤ) (σ : ℕ → ℕ)
    (hb : ∀ k, k < n → σ k < n) (hinv : ∀ k, k < n → σ (σ k) = k) :
    addAt n (fun k => idx (σ k)) (fun k => val (σ k)) j = addAt n idx val j := by
  rw [addAt_eq_sum, addAt_eq_sum]
  refine Finset.sum_nbij' σ σ ?_ ?_ ?_ ?_ ?_
  · intro a ha; exact Finset.mem_range.mpr (hb a (Finset.mem_range.mp ha))
  · intro a ha; exact Finset.mem_range.mpr (hb a (Finset.mem_range.mp ha))
  · intro a ha; exact hinv a (Finset.mem_range.mp ha)
  · intro a ha; exact hinv a (Finset.mem_range.mp ha)
  · intro a _; rfl

/-- The flat position of an in-range cell is below the grid area. -/
theorem flat_pos_lt (H W h w : ℕ) (hh : h < H) (hw : w < W) :
    h * W + w < H * W :=
  calc h * W + w < h * W + W := Nat.add_lt_add_left hw _
  _ = (h + 1) * W := (Nat.succ_mul h W).symm
  _ ≤ H * W := Nat.mul_le_mul_right W hh

/-- An in-range integer coordinate pair flattens into `[0, H*W)`. -/
theorem int_flat_pos_bounds (H W r c : ℤ) (h0r : 0 ≤ r) (hrH : r < H)
    (h0c : 0 ≤ c) (hcW : c < W) :
    0 ≤ r * W + c ∧ r * W + c < H * W := by
  constructor
  · have := mul_nonneg h0r (le_trans h0c (le_of_lt hcW))
    omega
  · calc r * W + c < r * W + W := by omega
    _ = (r + 1) * W := by ring
    _ ≤ H * W := by
        refine mul_le_mul_of_nonneg_right ?_ (le_trans h0c (le_of_lt hcW))
        omega

/-- Distinct batch offsets separate in-range flat positions. -/
theorem offset_ne (P a b r s : ℤ) (hab : a ≠ b) (h0r : 0 ≤ r) (hrP : r < P)
    (h0s : 0 ≤ s) (hsP : s < P) :
    a * P + r ≠ b * P + s := by
  intro h
  rcases lt_or_gt_of_ne hab with hlt | hlt
  · have : (a + 1) * P ≤ b * P :=
      mul_le_mul_of_nonneg_right (by omega) (by omega)
    nlinarith
  · have : (b + 1) * P ≤ a * P :=
      mul_le_mul_of_nonneg_right (by omega) (by omega)
    nlinarith

theorem forward_cover (B M N H W : ℕ) (x : ℕ → ℕ → ℕ → ℤ)
    (location : ℕ → ℕ → ℕ → ℤ) (b n h w : ℕ) :
    (ScatterConnection.mk "cover").forward B M N H W x location b n h w
      = coverAt (B * M) (fwdIdx M H W location) (fun k => x (k / M) (k % M) n)
          (cellIdx H W b h w) := rfl

theorem forward_add (B M N H W : ℕ) (x : ℕ → ℕ → ℕ → ℤ)
    (location : ℕ → ℕ → ℕ → ℤ) (b n h w : ℕ) :
    (ScatterConnection.mk "add").forward B M N H W x location b n h w
      = addAt (B * M) (fwdIdx M H W location) (fun k => x (k / M) (k % M) n)
          (cellIdx H W b h w) := rfl

theorem xy_forward_cover (B M N H W : ℕ) (x : ℕ → ℕ → ℕ → ℤ)
    (coord_x coord_y : ℕ → ℕ → ℚ) (b n h w : ℕ) :
    (ScatterConnection.mk "cover").xy_forward B M N H W x coord_x coord_y b n h w
      = coverAt M (xyIdx W coord_x coord_y b) (fun m => x b m n)
          ((h * W + w : ℕ) : ℤ) := rfl

theorem xy_forward_add (B M N H W : ℕ) (x : ℕ → ℕ → ℕ → ℤ)
    (coord_x coord_y : ℕ → ℕ → ℚ) (b n h w : ℕ) :
    (ScatterConnection.mk "add").xy_forward B M N H W x coord_x coord_y b n h w
      = addAt M (xyIdx W coord_x coord_y b) (fun m => x b m n)
          ((h * W + w : ℕ) : ℤ) := rfl

theorem rowEnt_div (M b m : ℕ) (hm : m < M) : (b * M + m) / M = b := by
  rw [mul_comm, Nat.mul_add_div (by omega)]
  simp [Nat.div_eq_of_lt hm]

theorem rowEnt_mod (M b m : ℕ) (hm : m < M) : (b * M + m) % M = m := by
  rw [mul_comm, Nat.mul_add_mod]
  exact Nat.mod_eq_of_lt hm

theorem rowEnt_lt (B M b m : ℕ) (hb : b < B) (hm : m < M) :
    b * M + m < B * M :=
  calc b * M + m < b * M + M := Nat.add_lt_add_left hm _
  _ = (b + 1) * M := (Nat.succ_mul b M).symm
  _ ≤ B * M := Nat.mul_le_mul_right M hb

/-- C1.  With `B=1, M=1, H=4, W=4, N=2` and feature vector `[1, 2]`, `forward`
at location `(row=1, col=2)` fills output cell `[0, :, 1, 2]` (flat index
`row*W + col = 6`), while `xy_forward` at `coordX=2, coordY=1` fills output
cell `[0, :, 2, 1]` (flat index `coordX*W + coordY = 9`, row `9/4 = 2`,
col `9%4 = 1`); the two entry points disagree on the same literal numeric
coordinates, each leaving the cell of the other zero. -/
theorem axis_convention_divergence :
    (ScatterConnection.mk "cover").forward 1 1 2 4 4
        (fun _ _ n => if n = 0 then 1 else 2) (fun _ _ c => if c = 0 then 1 else 2)
        0 0 1 2 = 1
    ∧ (ScatterConnection.mk "cover").forward 1 1 2 4 4
        (fun _ _ n => if n = 0 then 1 else 2) (fun _ _ c => if c = 0 then 1 else 2)
        0 1 1 2 = 2
    ∧ (ScatterConnection.mk "cover").xy_forward 1 1 2 4 4
        (fun _ _ n => if n = 0 then 1 else 2) (fun _ _ => 2) (fun _ _ => 1)
        0 0 2 1 = 1
    ∧ (ScatterConnection.mk "cover").xy_forward 1 1 2 4 4
        (fun _ _ n => if n = 0 then 1 else 2) (fun _ _ => 2) (fun _ _ => 1)
        0 1 2 1 = 2
    ∧ (ScatterConnection.mk "cover").forward 1 1 2 4 4
        (fun _ _ n => if n = 0 then 1 else 2) (fun _ _ c => if c = 0 then 1 else 2)
        0 0 2 1 = 0
    ∧ (ScatterConnection.mk "cover").xy_forward 1 1 2 4 4
        (fun _ _ n => if n = 0 then 1 else 2) (fun _ _ => 2) (fun _ _ => 1)
        0 0 1 2 = 0 := by
  refine ⟨by decide, by decide, ?_, ?_, by decide, ?_⟩ <;>
    norm_num [ScatterConnection.xy_forward, coverAt, xyIdx, ratTrunc, List.range_succ]

/-- C10.  The coordinate tensors of `xy_forward` are combined in their own
dtype and only the combined value is truncated toward zero by `.long()`:
with `W=4`, `coordX=1.6, coordY=0.9` the write address is
`trunc(1.6*4 + 0.9) = trunc(7.3) = 7`, that is cell `(1, 3)` of the grid,
not the cell `(1, 0)` that per-axis truncation (`trunc(1.6)*4 + trunc(0.9)
= 4`) would select, and the fractional input is not rejected. -/
theorem xy_fractional_truncation :
    xyIdx 4 (fun _ _ => 1.6) (fun _ _ => 0.9) 0 0 = 7
    ∧ (ScatterConnection.mk "cover").xy_forward 1 1 1 4 4
        (fun _ _ _ => 5) (fun _ _ => 1.6) (fun _ _ => 0.9) 0 0 1 3 = 5
    ∧ (ScatterConnection.mk "cover").xy_forward 1 1 1 4 4
        (fun _ _ _ => 5) (fun _ _ => 1.6) (fun _ _ => 0.9) 0 0 1 0 = 0 := by
  refine ⟨?_, ?_, ?_⟩ <;>
    norm_num [ScatterConnection.xy_forward, coverAt, xyIdx, ratTrunc, List.range_succ]

/-- C2.  Under the `cover` policy, the write that comes last in flattening
order (batch-major then entity-index for `forward`, entity-index within the
batch element for `xy_forward`) determines every cell it targets: if write
`k` (resp. `m`) targets the cell read back at `(b, h, w)` and no later write
targets it, the cell equals that entity's feature value.  The embedding is a
pure function of the inputs, so repeated calls with identical inputs are
definitionally equal, which settles reproducibility. -/
theorem cover_last_entity_wins
    (B M N H W : ℕ) (x : ℕ → ℕ → ℕ → ℤ) (location : ℕ → ℕ → ℕ → ℤ)
    (k b n h w : ℕ)
    (x₂ : ℕ → ℕ → ℕ → ℤ) (coord_x coord_y : ℕ → ℕ → ℚ)
    (m b₂ n₂ h₂ w₂ : ℕ)
    (hk : k < B * M)
    (hkj : fwdIdx M H W location k = cellIdx H W b h w)
    (hklast : ∀ k', k' < B * M → k < k' →
      fwdIdx M H W location k' ≠ cellIdx H W b h w)
    (hm : m < M)
    (hmj : xyIdx W coord_x coord_y b₂ m = ((h₂ * W + w₂ : ℕ) : ℤ))
    (hmlast : ∀ m', m' < M → m < m' →
      xyIdx W coord_x coord_y b₂ m' ≠ ((h₂ * W + w₂ : ℕ) : ℤ)) :
    (ScatterConnection.mk "cover").forward B M N H W x location b n h w
        = x (k / M) (k % M) n
    ∧ (ScatterConnection.mk "cover").xy_forward B M N H W x₂ coord_x coord_y
        b₂ n₂ h₂ w₂ = x₂ b₂ m n₂ := by
  constructor
  · rw [forward_cover]
    exact coverAt_eq_last (B * M) _ _ _ k hk hkj hklast
  · rw [xy_forward_cover]
    exact coverAt_eq_last M _ _ _ m hm hmj hmlast

/-- Witness for C2: two entities of the same batch element write the same
cell; the cell holds the value of the second (later) entity. -/
theorem cover_last_entity_wins_witness :
    (ScatterConnection.mk "cover").forward 1 2 1 2 2
        (fun _ m _ => if m = 0 then 3 else 4) (fun _ _ c => if c = 0 then 0 else 1)
        0 0 0 1 = 4
    ∧ (ScatterConnection.mk "cover").xy_forward 1 2 1 2 2
        (fun _ m _ => if m = 0 then 3 else 4) (fun _ _ => 0) (fun _ _ => 1)
        0 0 0 1 = 4 := by
  have h := cover_last_entity_wins 1 2 1 2 2
    (fun _ m _ => if m = 0 then 3 else 4) (fun _ _ c => if c = 0 then 0 else 1)
    1 0 0 0 1
    (fun _ m _ => if m = 0 then 3 else 4) (fun _ _ => 0) (fun _ _ => 1)
    1 0 0 0 1
    (by decide) (by decide) (by decide)
    (by decide) (by simp [xyIdx, ratTrunc]) (by decide)
  exact ⟨h.1, h.2⟩

theorem swap2_lt (a b m M : ℕ) (ha : a < M) (hb : b < M) (hm : m < M) :
    swap2 a b m < M := by
  unfold swap2; split_ifs <;> omega

theorem swap2_invol (a b m : ℕ) : swap2 a b (swap2 a b m) = m := by
  unfold swap2; split_ifs <;> omega

theorem swapRow_lt (B M a b k : ℕ) (ha : a < M) (hb : b < M)
    (hk : k < B * M) : swapRow M a b k < B * M := by
  have hM : 0 < M := by omega
  have h1 : swap2 a b (k % M) < M := swap2_lt a b _ M ha hb (Nat.mod_lt k hM)
  have h2 : k / M < B := (Nat.div_lt_iff_lt_mul hM).mpr hk
  exact rowEnt_lt B M _ _ h2 h1

theorem swapRow_div (M a b k : ℕ) (ha : a < M) (hb : b < M) :
    swapRow M a b k / M = k / M := by
  have hM : 0 < M := by omega
  exact rowEnt_div M _ _ (swap2_lt a b _ M ha hb (Nat.mod_lt k hM))

theorem swapRow_mod (M a b k : ℕ) (ha : a < M) (hb : b < M) :
    swapRow M a b k % M = swap2 a b (k % M) := by
  have hM : 0 < M := by omega
  exact rowEnt_mod M _ _ (swap2_lt a b _ M ha hb (Nat.mod_lt k hM))

theorem swapRow_invol (M a b k : ℕ) (ha : a < M) (hb : b < M) :
    swapRow M a b (swapRow M a b k) = k := by
  rw [swapRow, swapRow_div M a b k ha hb, swapRow_mod M a b k ha hb,
    swap2_invol, Nat.mul_comm (k / M) M]
  exact Nat.div_add_mod k M

/-- Transposing two entity positions (below `M`) in the inputs leaves the
`add`-policy result of `forward` unchanged. -/
theorem forward_add_entity_swap (B M N H W : ℕ) (x : ℕ → ℕ → ℕ → ℤ)
    (location : ℕ → ℕ → ℕ → ℤ) (m1 m2 : ℕ) (hm1 : m1 < M) (hm2 : m2 < M)
    (b n h w : ℕ) :
    (ScatterConnection.mk "add").forward B M N H W
        (fun bb mm nn => x bb (swap2 m1 m2 mm) nn)
        (fun bb mm cc => location bb (swap2 m1 m2 mm) cc) b n h w
      = (ScatterConnection.mk "add").forward B M N H W x location b n h w := by
  rw [forward_add, forward_add]
  have h := addAt_comp (B * M) (fwdIdx M H W location)
    (fun k => x (k / M) (k % M) n) (cellIdx H W b h w) (swapRow M m1 m2)
    (fun k hk => swapRow_lt B M m1 m2 k hm1 hm2 hk)
    (fun k _ => swapRow_invol M m1 m2 k hm1 hm2)
  rw [← h]
  congr 1
  · funext k
    simp only [fwdIdx, swapRow_div M m1 m2 k hm1 hm2, swapRow_mod M m1 m2 k hm1 hm2]
  · funext k
    simp only [swapRow_div M m1 m2 k hm1 hm2, swapRow_mod M m1 m2 k hm1 hm2]

/-- Transposing two entity positions (below `M`) in the inputs leaves the
`add`-policy result of `xy_forward` unchanged. -/
theorem xy_forward_add_entity_swap (B M N H W : ℕ) (x : ℕ → ℕ → ℕ → ℤ)
    (coord_x coord_y : ℕ → ℕ → ℚ) (p1 p2 : ℕ) (hp1 : p1 < M) (hp2 : p2 < M)
    (b n h w : ℕ) :
    (ScatterConnection.mk "add").xy_forward B M N H W
        (fun bb mm nn => x bb (swap2 p1 p2 mm) nn)
        (fun bb mm => coord_x bb (swap2 p1 p2 mm))
        (fun bb mm => coord_y bb (swap2 p1 p2 mm)) b n h w
      = (ScatterConnection.mk "add").xy_forward B M N H W x coord_x coord_y
          b n h w := by
  rw [xy_forward_add, xy_forward_add]
  have h := addAt_comp M (xyIdx W coord_x coord_y b) (fun m => x b m n)
    ((h * W + w : ℕ) : ℤ) (swap2 p1 p2)
    (fun m hm => swap2_lt p1 p2 m M hp1 hp2 hm)
    (fun m _ => swap2_invol p1 p2 m)
  rw [← h]
  congr 1

/-- C3.  Under the `add` policy, when exactly the two entities `m1 ≠ m2` of a
batch element target a given cell, the cell equals the per-channel sum of
their feature vectors, for both entry points; moreover the result is
unchanged when the two entities are transposed in the input, so it does not
depend on their order. -/
theorem add_collision_pair_sum
    (B M N H W : ℕ) (x : ℕ → ℕ → ℕ → ℤ) (location : ℕ → ℕ → ℕ → ℤ)
    (b m1 m2 n h w : ℕ)
    (x₂ : ℕ → ℕ → ℕ → ℤ) (coord_x coord_y : ℕ → ℕ → ℚ)
    (b₂ p1 p2 n₂ h₂ w₂ : ℕ)
    (hb : b < B) (hm1 : m1 < M) (hm2 : m2 < M) (hne : m1 ≠ m2)
    (hj1 : fwdIdx M H W location (b * M + m1) = cellIdx H W b h w)
    (hj2 : fwdIdx M H W location (b * M + m2) = cellIdx H W b h w)
    (honly : ∀ k, k < B * M → fwdIdx M H W location k = cellIdx H W b h w →
      k = b * M + m1 ∨ k = b * M + m2)
    (hp1 : p1 < M) (hp2 : p2 < M) (hpne : p1 ≠ p2)
    (hq1 : xyIdx W coord_x coord_y b₂ p1 = ((h₂ * W + w₂ : ℕ) : ℤ))
    (hq2 : xyIdx W coord_x coord_y b₂ p2 = ((h₂ * W + w₂ : ℕ) : ℤ))
    (honly₂ : ∀ m, m < M →
      xyIdx W coord_x coord_y b₂ m = ((h₂ * W + w₂ : ℕ) : ℤ) →
      m = p1 ∨ m = p2) :
    ((ScatterConnection.mk "add").forward B M N H W x location b n h w
        = x b m1 n + x b m2 n
      ∧ (ScatterConnection.mk "add").forward B M N H W x location b n h w
          = (ScatterConnection.mk "add").forward B M N H W
              (fun bb mm nn => x bb (swap2 m1 m2 mm) nn)
              (fun bb mm cc => location bb (swap2 m1 m2 mm) cc) b n h w)
    ∧ ((ScatterConnection.mk "add").xy_forward B M N H W x₂ coord_x coord_y
          b₂ n₂ h₂ w₂
        = x₂ b₂ p1 n₂ + x₂ b₂ p2 n₂
      ∧ (ScatterConnection.mk "add").xy_forward B M N H W x₂ coord_x coord_y
          b₂ n₂ h₂ w₂
          = (ScatterConnection.mk "add").xy_forward B M N H W
              (fun bb mm nn => x₂ bb (swap2 p1 p2 mm) nn)
              (fun bb mm => coord_x bb (swap2 p1 p2 mm))
              (fun bb mm => coord_y bb (swap2 p1 p2 mm)) b₂ n₂ h₂ w₂) := by
  refine ⟨⟨?_, ?_⟩, ?_, ?_⟩
  · rw [forward_add,
      addAt_eq_pair (B * M) _ _ _ (b * M + m1) (b * M + m2)
        (rowEnt_lt B M b m1 hb hm1) (rowEnt_lt B M b m2 hb hm2)
        (by omega) hj1 hj2 honly]
    simp only [rowEnt_div M b m1 hm1, rowEnt_mod M b m1 hm1,
      rowEnt_div M b m2 hm2, rowEnt_mod M b m2 hm2]
  · exact (forward_add_entity_swap B M N H W x location m1 m2 hm1 hm2 b n h w).symm
  · rw [xy_forward_add,
      addAt_eq_pair M _ _ _ p1 p2 hp1 hp2 hpne hq1 hq2 honly₂]
  · exact (xy_forward_add_entity_swap B M N H W x₂ coord_x coord_y p1 p2
      hp1 hp2 b₂ n₂ h₂ w₂).symm

/-- Witness for C3: the two entities of a batch element write the same cell
under `add`; the cell holds the sum `3 + 4 = 7` for both entry points. -/
theorem add_collision_pair_sum_witness :
    (ScatterConnection.mk "add").forward 1 2 1 2 2
        (fun _ m _ => if m = 0 then 3 else 4) (fun _ _ c => if c = 0 then 0 else 1)
        0 0 0 1 = 7
    ∧ (ScatterConnection.mk "add").xy_forward 1 2 1 2 2
        (fun _ m _ => if m = 0 then 3 else 4) (fun _ _ => 0) (fun _ _ => 1)
        0 0 0 1 = 7 := by
  have h := add_collision_pair_sum 1 2 1 2 2
    (fun _ m _ => if m = 0 then 3 else 4) (fun _ _ c => if c = 0 then 0 else 1)
    0 0 1 0 0 1
    (fun _ m _ => if m = 0 then 3 else 4) (fun _ _ => 0) (fun _ _ => 1)
    0 0 1 0 0 1
    (by decide) (by decide) (by decide) (by decide)
    (by decide) (by decide) (by decide)
    (by decide) (by decide) (by decide)
    (by simp [xyIdx, ratTrunc]) (by simp [xyIdx, ratTrunc])
    (by intro m hm _; omega)
  exact ⟨h.1.1, h.2.1⟩

/-- C7.  Under either collision policy and either entry point, an output cell
targeted by no write keeps the zero the buffer was initialised with. -/
theorem zero_fill_untargeted
    (e : ScatterConnection) (B M N H W : ℕ)
    (x : ℕ → ℕ → ℕ → ℤ) (location : ℕ → ℕ → ℕ → ℤ) (b n h w : ℕ)
    (x₂ : ℕ → ℕ → ℕ → ℤ) (coord_x coord_y : ℕ → ℕ → ℚ) (b₂ n₂ h₂ w₂ : ℕ)
    (hmiss : ∀ k, k < B * M → fwdIdx M H W location k ≠ cellIdx H W b h w)
    (hmiss₂ : ∀ m, m < M →
      xyIdx W coord_x coord_y b₂ m ≠ ((h₂ * W + w₂ : ℕ) : ℤ)) :
    e.forward B M N H W x location b n h w = 0
    ∧ e.xy_forward B M N H W x₂ coord_x coord_y b₂ n₂ h₂ w₂ = 0 := by
  constructor
  · unfold ScatterConnection.forward
    split_ifs
    · exact coverAt_eq_zero _ _ _ _ hmiss
    · exact addAt_eq_zero _ _ _ _ hmiss
    · rfl
  · unfold ScatterConnection.xy_forward
    split_ifs
    · exact coverAt_eq_zero _ _ _ _ hmiss₂
    · exact addAt_eq_zero _ _ _ _ hmiss₂
    · rfl

/-- Witness for C7: the single entity writes cell `(0, 0)`; the untargeted
cell `(1, 1)` is zero for both entry points. -/
theorem zero_fill_untargeted_witness :
    (ScatterConnection.mk "cover").forward 1 1 1 2 2
        (fun _ _ _ => 5) (fun _ _ _ => 0) 0 0 1 1 = 0
    ∧ (ScatterConnection.mk "cover").xy_forward 1 1 1 2 2
        (fun _ _ _ => 5) (fun _ _ => 0) (fun _ _ => 0) 0 0 1 1 = 0 := by
  have h := zero_fill_untargeted (ScatterConnection.mk "cover") 1 1 1 2 2
    (fun _ _ _ => 5) (fun _ _ _ => 0) 0 0 1 1
    (fun _ _ _ => 5) (fun _ _ => 0) (fun _ _ => 0) 0 0 1 1
    (by decide)
    (by intro m hm; simp [xyIdx, ratTrunc])
  exact ⟨h.1, h.2⟩

/-- In `forward`, an entity of a batch element other than `b` never writes an
in-range cell of batch element `b`, provided every coordinate is in range:
its flat address lives in the disjoint stripe of its own batch element. -/
theorem fwd_idx_ne_of_other_batch (B M H W : ℕ) (location : ℕ → ℕ → ℕ → ℤ)
    (b h w k : ℕ) (hb : b < B) (hh : h < H) (hw : w < W) (hk : k < B * M)
    (hrange : ∀ bb, bb < B → ∀ m, m < M →
      0 ≤ location bb m 0 ∧ location bb m 0 < (H : ℤ)
        ∧ 0 ≤ location bb m 1 ∧ location bb m 1 < (W : ℤ))
    (hbk : k / M ≠ b) :
    fwdIdx M H W location k ≠ cellIdx H W b h w := by
  have hM : 0 < M := by
    rcases Nat.eq_zero_or_pos M with h0 | h0
    · subst h0; omega
    · exact h0
  have hm : k % M < M := Nat.mod_lt k hM
  have hkB : k / M < B := (Nat.div_lt_iff_lt_mul hM).mpr hk
  obtain ⟨h0r, hrH, h0c, hcW⟩ := hrange (k / M) hkB (k % M) hm
  have hr := int_flat_pos_bounds (H : ℤ) (W : ℤ)
    (location (k / M) (k % M) 0) (location (k / M) (k % M) 1) h0r hrH h0c hcW
  have hsnn : (0 : ℤ) ≤ (h : ℤ) * (W : ℤ) + (w : ℤ) := by positivity
  have hslt : (h : ℤ) * (W : ℤ) + (w : ℤ) < (H : ℤ) * (W : ℤ) := by
    have := flat_pos_lt H W h w hh hw
    exact_mod_cast this
  intro heq
  have hform : ((k / M : ℕ) : ℤ) * ((H : ℤ) * (W : ℤ))
      + (location (k / M) (k % M) 0 * (W : ℤ) + location (k / M) (k % M) 1)
      = (b : ℤ) * ((H : ℤ) * (W : ℤ)) + ((h : ℤ) * (W : ℤ) + (w : ℤ)) := by
    simp only [fwdIdx, cellIdx] at heq
    generalize hq : ((k / M : ℕ) : ℤ) = Q at heq ⊢
    push_cast at heq
    linarith
  exact offset_ne ((H : ℤ) * (W : ℤ)) ((k / M : ℕ) : ℤ) (b : ℤ)
    (location (k / M) (k % M) 0 * (W : ℤ) + location (k / M) (k % M) 1)
    ((h : ℤ) * (W : ℤ) + (w : ℤ))
    (by exact_mod_cast hbk) hr.1 hr.2 hsnn hslt hform

/-- C4.  No cross-batch bleed: two calls whose inputs agree on batch element
`b` (features at channel `n` and coordinates), all coordinates of both runs
in range, produce identical values at every in-range output cell of batch
element `b` — entities of other batch elements cannot influence it.  For
`xy_forward` the per-batch buffers make this hold with no range condition. -/
theorem no_cross_batch_bleed
    (e : ScatterConnection) (B M N H W : ℕ)
    (x x' : ℕ → ℕ → ℕ → ℤ) (location location' : ℕ → ℕ → ℕ → ℤ)
    (b n h w : ℕ)
    (x₂ x₂' : ℕ → ℕ → ℕ → ℤ) (coord_x coord_y coord_x' coord_y' : ℕ → ℕ → ℚ)
    (b₂ n₂ h₂ w₂ : ℕ)
    (hb : b < B) (hh : h < H) (hw : w < W)
    (hrange : ∀ bb, bb < B → ∀ m, m < M →
      0 ≤ location bb m 0 ∧ location bb m 0 < (H : ℤ)
        ∧ 0 ≤ location bb m 1 ∧ location bb m 1 < (W : ℤ))
    (hrange' : ∀ bb, bb < B → ∀ m, m < M →
      0 ≤ location' bb m 0 ∧ location' bb m 0 < (H : ℤ)
        ∧ 0 ≤ location' bb m 1 ∧ location' bb m 1 < (W : ℤ))
    (hlocagree : ∀ m, m < M →
      location b m 0 = location' b m 0 ∧ location b m 1 = location' b m 1)
    (hxagree : ∀ m, m < M → x b m n = x' b m n)
    (hcoordagree : ∀ m, m < M →
      coord_x b₂ m = coord_x' b₂ m ∧ coord_y b₂ m = coord_y' b₂ m)
    (hx₂agree : ∀ m, m < M → x₂ b₂ m n₂ = x₂' b₂ m n₂) :
    e.forward B M N H W x location b n h w
      = e.forward B M N H W x' location' b n h w
    ∧ e.xy_forward B M N H W x₂ coord_x coord_y b₂ n₂ h₂ w₂
      = e.xy_forward B M N H W x₂' coord_x' coord_y' b₂ n₂ h₂ w₂ := by
  have hM0 : ∀ k, k < B * M → k % M < M := by
    intro k hk
    have hM : 0 < M := by
      rcases Nat.eq_zero_or_pos M with h0 | h0
      · subst h0; omega
      · exact h0
    exact Nat.mod_lt k hM
  have hidxeq : ∀ k, k < B * M → k / M = b →
      fwdIdx M H W location k = fwdIdx M H W location' k := by
    intro k hk hkb
    have hm := hM0 k hk
    simp only [fwdIdx, hkb, (hlocagree (k % M) hm).1, (hlocagree (k % M) hm).2]
  have hidx : ∀ k, k < B * M →
      (fwdIdx M H W location k = cellIdx H W b h w
        ↔ fwdIdx M H W location' k = cellIdx H W b h w) := by
    intro k hk
    by_cases hkb : k / M = b
    · rw [hidxeq k hk hkb]
    · exact iff_of_false
        (fwd_idx_ne_of_other_batch B M H W location b h w k hb hh hw hk hrange hkb)
        (fwd_idx_ne_of_other_batch B M H W location' b h w k hb hh hw hk hrange' hkb)
  have hval : ∀ k, k < B * M → fwdIdx M H W location k = cellIdx H W b h w →
      x (k / M) (k % M) n = x' (k / M) (k % M) n := by
    intro k hk hj
    by_cases hkb : k / M = b
    · rw [hkb]; exact hxagree (k % M) (hM0 k hk)
    · exact absurd hj
        (fwd_idx_ne_of_other_batch B M H W location b h w k hb hh hw hk hrange hkb)
  have hidx₂ : ∀ m, m < M →
      xyIdx W coord_x coord_y b₂ m = xyIdx W coord_x' coord_y' b₂ m := by
    intro m hm
    simp only [xyIdx, (hcoordagree m hm).1, (hcoordagree m hm).2]
  constructor
  · unfold ScatterConnection.forward
    split_ifs
    · exact coverAt_congr (B * M) _ _ _ _ _ hidx hval
    · exact addAt_congr (B * M) _ _ _ _ _ hidx hval
    · rfl
  · unfold ScatterConnection.xy_forward
    split_ifs
    · exact coverAt_congr M _ _ _ _ _
        (fun m hm => by rw [hidx₂ m hm])
        (fun m hm _ => hx₂agree m hm)
    · exact addAt_congr M _ _ _ _ _
        (fun m hm => by rw [hidx₂ m hm])
        (fun m hm _ => hx₂agree m hm)
    · rfl

/-- Witness for C4: two runs differing only in batch element 1 agree on the
whole output slice cell `(0, n=0, 0, 1)` of batch element 0. -/
theorem no_cross_batch_bleed_witness :
    (ScatterConnection.mk "cover").forward 2 1 1 1 2
        (fun bb _ _ => bb + 5) (fun _ _ c => (c : ℤ)) 0 0 0 1
      = (ScatterConnection.mk "cover").forward 2 1 1 1 2
          (fun bb _ _ => if bb = 0 then 5 else 9)
          (fun bb _ c => if bb = 0 then (c : ℤ) else 0) 0 0 0 1
    ∧ (ScatterConnection.mk "cover").xy_forward 2 1 1 1 2
        (fun bb _ _ => bb + 5) (fun _ _ => 0) (fun bb _ => if bb = 0 then 1 else 0)
        0 0 0 1
      = (ScatterConnection.mk "cover").xy_forward 2 1 1 1 2
          (fun bb _ _ => if bb = 0 then 5 else 9) (fun _ _ => 0) (fun _ _ => 1)
          0 0 0 1 := by
  have h := no_cross_batch_bleed (ScatterConnection.mk "cover") 2 1 1 1 2
    (fun bb _ _ => bb + 5) (fun bb _ _ => if bb = 0 then 5 else 9)
    (fun _ _ c => (c : ℤ)) (fun bb _ c => if bb = 0 then (c : ℤ) else 0)
    0 0 0 1
    (fun bb _ _ => bb + 5) (fun bb _ _ => if bb = 0 then 5 else 9)
    (fun _ _ => 0) (fun bb _ => if bb = 0 then 1 else 0)
    (fun _ _ => 0) (fun _ _ => 1)
    0 0 0 1
    (by decide) (by decide) (by decide)
    (by decide) (by decide) (by decide) (by decide)
    (by decide) (by decide)
  exact ⟨h.1, h.2⟩

/-- C6.  Both entry points return a tensor of shape exactly `(B, N, H, W)`:
every reshape step preserves the element count, so none fails, and the final
axis order is `(B, N, H, W)` in both layouts. -/
theorem output_shape_contract (B N H W : ℕ) :
    forwardShape B N H W = some [B, N, H, W]
    ∧ xyForwardShape B N H W = some [B, N, H, W] := by
  constructor
  · rw [forwardShape, reshapeShape, if_pos (by simp only [List.prod_cons, List.prod_nil]; ring)]
    rfl
  · rw [xyForwardShape, reshapeShape, if_pos (by simp only [List.prod_cons, List.prod_nil]; ring)]
    simp only [Option.some_bind]
    rw [reshapeShape, if_pos (by simp only [List.prod_cons, List.prod_nil]; ring)]

/-- C9.  Construction succeeds exactly on the two collision policies `cover`
and `add`, and a successful construction stores that policy unchanged in the
instance; any other string fails the constructor assertion and yields no
instance. -/
theorem constructor_policy_validation (st : String) :
    (st = "cover" ∨ st = "add" → mkScatterConnection st = some ⟨st⟩)
    ∧ (st ≠ "cover" ∧ st ≠ "add" → mkScatterConnection st = none) := by
  constructor
  · intro h
    rw [mkScatterConnection, if_pos h]
  · intro h
    rw [mkScatterConnection, if_neg (by tauto)]

/-- Witness for C9: `cover` constructs and stores the policy; `max` is
rejected. -/
theorem constructor_policy_validation_witness :
    mkScatterConnection "cover" = some ⟨"cover"⟩
    ∧ mkScatterConnection "max" = none :=
  ⟨(constructor_policy_validation "cover").1 (Or.inl rfl),
   (constructor_policy_validation "max").2 ⟨by decide, by decide⟩⟩

/-- Counterexample to C5 as stated: with features of shape `(2, 3, 1)` and
locations of shape `(3, 2, 2)`, both the batch dimensions (`2` vs `3`) and
the entity-count dimensions (`3` vs `2`) disagree, yet the call does not
fail — the flattened pair count `3*2 = 2*3` matches, every shape-sensitive
step passes, and a full output is returned. -/
theorem shape_mismatch_not_raised :
    ((2 : ℕ) ≠ 3 ∧ (3 : ℕ) ≠ 2)
    ∧ (forwardChecked (ScatterConnection.mk "cover") 2 3 1 3 2 4 4
        (fun _ _ _ => 1) (fun _ _ => 0)).isSome = true := by
  exact ⟨⟨by decide, by decide⟩, rfl⟩

/-- C5 (amended).  The call aborts before any write exactly when the
flattened location pair count `B₂*M₂` differs from the flattened entity
count `B*M` — except the broadcast corner `B*M = 1, B₂*M₂ = 0`, which
returns the all-zero output; when the counts agree, the call succeeds (even
if `B` or `M` individually disagree) and pairs locations with entities in
flattened order. -/
theorem flat_count_gate (self : ScatterConnection) (B M N B₂ M₂ H W : ℕ)
    (x : ℕ → ℕ → ℕ → ℤ) (locFlat : ℕ → ℕ → ℤ) :
    (B₂ * M₂ = B * M →
      forwardChecked self B M N B₂ M₂ H W x locFlat
        = some (self.forward B M N H W x (fun bb mm c => locFlat (bb * M + mm) c)))
    ∧ (B₂ * M₂ ≠ B * M → ¬(B * M = 1 ∧ B₂ * M₂ = 0) →
      forwardChecked self B M N B₂ M₂ H W x locFlat = none)
    ∧ (B * M = 1 → B₂ * M₂ = 0 →
      forwardChecked self B M N B₂ M₂ H W x locFlat
        = some (fun _ _ _ _ => 0)) := by
  refine ⟨fun h => ?_, fun h h' => ?_, fun h h' => ?_⟩
  · rw [forwardChecked, if_pos h]
  · rw [forwardChecked, if_neg h, if_neg h']
  · rw [forwardChecked, if_neg (by omega), if_pos ⟨h, h'⟩]

/-- Witness for the amended C5: matching flattened counts `3*2 = 2*3` let
the call through with the flattened pairing, and count `5*1 ≠ 2*3` aborts
it. -/
theorem flat_count_gate_witness :
    forwardChecked (ScatterConnection.mk "cover") 2 3 1 3 2 4 4
        (fun _ _ _ => 1) (fun _ _ => 0)
      = some ((ScatterConnection.mk "cover").forward 2 3 1 4 4
          (fun _ _ _ => 1) (fun bb mm c => (fun _ _ => (0 : ℤ)) (bb * 3 + mm) c))
    ∧ forwardChecked (ScatterConnection.mk "cover") 2 3 1 5 1 4 4
        (fun _ _ _ => 1) (fun _ _ => 0) = none :=
  ⟨(flat_count_gate (ScatterConnection.mk "cover") 2 3 1 3 2 4 4
      (fun _ _ _ => 1) (fun _ _ => 0)).1 (by decide),
   ((flat_count_gate (ScatterConnection.mk "cover") 2 3 1 5 1 4 4
      (fun _ _ _ => 1) (fun _ _ => 0)).2).1 (by decide) (by decide)⟩

/-- C8.  Neither entry point mutates an input: every in-place write of the
two bodies lands in a storage allocated inside the call, never in the
storage of `x`, `location`, `coord_x` or `coord_y`, and the returned tensor
also lives in a storage allocated inside the call. -/
theorem no_input_mutation (xsid locsid cxsid cysid : ℕ) :
    (xsid ∉ (forwardEffects xsid locsid).1
      ∧ locsid ∉ (forwardEffects xsid locsid).1
      ∧ (forwardEffects xsid locsid).2 ≠ xsid
      ∧ (forwardEffects xsid locsid).2 ≠ locsid)
    ∧ (xsid ∉ (xyForwardEffects xsid cxsid cysid).1
      ∧ cxsid ∉ (xyForwardEffects xsid cxsid cysid).1
      ∧ cysid ∉ (xyForwardEffects xsid cxsid cysid).1
      ∧ (xyForwardEffects xsid cxsid cysid).2 ≠ xsid
      ∧ (xyForwardEffects xsid cxsid cysid).2 ≠ cxsid
      ∧ (xyForwardEffects xsid cxsid cysid).2 ≠ cysid) := by
  simp [forwardEffects, xyForwardEffects, allocOp, viewOp, inplaceOp]
  omega
